import Mathlib

/-!
# Verification of the PMM-Agent step-1 question-sequencing state machine

Shallow embedding of the question-sequencing and conditional-branching logic of
`src/static/js/app.js` (class `PMMAssistant`): the fixed question list built in
`startChatMode`, the submission handler `sendChatMessage`, the per-question step
`handleStep1Question` (including its recursive self-call used to skip a
conditional question), and the fail-closed validation wrapper `validateResponse`.

DOM rendering, typing indicators and HTTP transport are out of scope; external
calls are modelled as events in an observable trace, and the external validation
service is an oracle `Validator` returning `some b` for a successful round-trip
with verdict `b` and `none` for transport failure (the source maps failure to
`false`, i.e. fail-closed).
-/

/-- A question record, as built in `startChatMode` (source lines 59-101).
Fields absent on a given JS object literal are modelled by the defaults
(`conditional` absent ↦ `false`, `depends_on`/`depends_value` absent ↦ `none`). -/
structure Question where
  id : String
  question : String
  type : String
  options : List String := []
  required : Bool := false
  conditional : Bool := false
  depends_on : Option String := none
  depends_value : Option String := none
deriving Repr, DecidableEq

/-- Observable events of one run: messages appended to the chat transcript,
round-trips to the validation service (`validateResponse`, which sends the raw
message plus the current question's prompt and type), round-trips to the chat
backend (`/api/chat`), and the step-1 finalization block
(`saveStep1Responses` + `generatePMMPlan` + status updates). -/
inductive Event where
  | userMsg (text : String)
  | assistantMsg (text : String)
  | validatorCall (message : String) (prompt : String) (kind : String)
  | chatBackendCall (message : String)
  | step1Complete
deriving Repr, DecidableEq

/-- The mutable state of the assistant that the step-1 sequencing logic reads and
writes: `this.currentQuestionIndex`, `this.questions`, `this.responses`.
`responses` (the JS object used as a string-keyed map of accepted answers) is
modelled as an insertion-ordered association list with unique keys. -/
structure AppState where
  currentQuestionIndex : Nat
  questions : List Question
  responses : List (String × String)
deriving Repr, DecidableEq

/-- The external validation service as an oracle: arguments are the raw message,
the current question's prompt (`question.question`) and its type
(`question.type`), mirroring the `/api/validate-response` payload. `none` models
a failed fetch; `validateResponse` turns that into `false` (fail-closed,
source lines 225-229). -/
def Validator : Type := String → String → String → Option Bool

/-- Whitespace for the purposes of `String.prototype.trim` (restricted to the
ASCII whitespace actually relevant to chat input). -/
def wsChar (c : Char) : Bool :=
  c = ' ' || c = '\t' || c = '\n' || c = '\r'

/-- `input.value.trim()` (source line 106): strip leading and trailing
whitespace, modelled structurally on the character list of the string. -/
def jsTrim (s : String) : String :=
  ⟨((s.data.dropWhile wsChar).reverse.dropWhile wsChar).reverse⟩

/-- JS truthiness of an optional string field (`undefined` and `""` are falsy). -/
def optTruthy : Option String → Bool
  | none => false
  | some s => !(s = "")

/-- Property read `responses[key]` on the answer map (`undefined` ↦ `none`). -/
def getResp (rs : List (String × String)) (k : String) : Option String :=
  (rs.find? (fun p => p.1 = k)).map (fun p => p.2)

/-- Property write `responses[key] = v`: overwrite in place if the key exists
(JS objects keep the original insertion position), else append. -/
def setResp (rs : List (String × String)) (k v : String) : List (String × String) :=
  if rs.any (fun p => p.1 = k) then
    rs.map (fun p => if p.1 = k then (k, v) else p)
  else
    rs ++ [(k, v)]

/-- The clarification nudge emitted on rejection (source line 160). -/
def clarificationText : String :=
  "I need a more detailed response. Could you please provide more specific information?"

/-- The welcome message emitted by `startChatMode` (source line 54). -/
def welcomeText : String :=
  "Welcome to the PMM Assistant! I\x27ll guide you through an 11-step positioning and messaging workflow. Let\x27s start with Step 1: Context Gathering & Planning."

/-- The fixed step-1 question list assigned to `this.questions` in
`startChatMode` (source lines 59-101), transcribed field by field. -/
def pmmQuestions : List Question :=
  [{ id := "company_name",
     question := "What is your company name?",
     type := "text",
     required := true },
   { id := "company_description",
     question := "Please provide a brief description of what your company does.",
     type := "textarea",
     required := true },
   { id := "customer_description",
     question := "Please provide a brief description of who your customers are.",
     type := "textarea",
     required := true },
   { id := "positioning_experience",
     question := "Are you doing the positioning and messaging exercise for the first time, or are you repositioning an existing brand?",
     type := "select",
     options := ["First time", "Repositioning existing brand"],
     required := true },
   { id := "company_scope",
     question := "Are you doing this exercise for the whole company or a specific segment/product?",
     type := "select",
     options := ["Whole company", "Specific segment/product"],
     required := true },
   { id := "product_name",
     question := "What is the name of the specific product you\x27re doing this exercise for?",
     type := "text",
     required := false,
     conditional := true,
     depends_on := some "company_scope",
     depends_value := some "Specific segment/product" }]

/-- One submission step, `handleStep1Question(message)` (source lines 150-206),
with the source's recursive self-call `this.handleStep1Question("")` made
structurally recursive on an explicit bound `fuel`.  Each self-call advances
`currentQuestionIndex` by 2 while the question list is unchanged, so the
recursion depth is bounded by `questions.length`; the wrapper
`handleStep1Question` supplies exactly that bound, and `handleStep1Go_fuel`
below shows the result does not depend on the bound once it is large enough.
The `fuel = 0` and index-out-of-range cases return the state unchanged; they are
unreachable from the modelled entry points, which only call this step while
`currentQuestionIndex < questions.length` holds. -/
def handleStep1Go (V : Validator) : Nat → AppState → String → AppState × List Event
  | 0, s, _ => (s, [])
  | fuel + 1, s, message =>
    if h : s.currentQuestionIndex < s.questions.length then
      let cq := s.questions[s.currentQuestionIndex]
      -- const isValid = await this.validateResponse(message, currentQuestion);
      let isValid := (V message cq.question cq.type).getD false
      if isValid then
        -- this.responses[currentQuestion.id] = message; this.currentQuestionIndex++;
        let s1 : AppState :=
          { s with currentQuestionIndex := s.currentQuestionIndex + 1,
                   responses := setResp s.responses cq.id message }
        if h2 : s1.currentQuestionIndex < s1.questions.length then
          let nq := s1.questions[s1.currentQuestionIndex]
          if nq.conditional && optTruthy nq.depends_on then
            if getResp s1.responses (nq.depends_on.getD "") ≠ nq.depends_value then
              -- Skip this conditional question
              let s2 : AppState :=
                { s1 with currentQuestionIndex := s1.currentQuestionIndex + 1 }
              if s2.currentQuestionIndex < s2.questions.length then
                -- this.handleStep1Question(""); // Recursive call to continue
                let r := handleStep1Go V fuel s2 ""
                (r.1, Event.validatorCall message cq.question cq.type :: r.2)
              else
                (s2, [Event.validatorCall message cq.question cq.type,
                      Event.step1Complete])
            else
              (s1, [Event.validatorCall message cq.question cq.type,
                    Event.assistantMsg nq.question])
          else
            (s1, [Event.validatorCall message cq.question cq.type,
                  Event.assistantMsg nq.question])
        else
          (s1, [Event.validatorCall message cq.question cq.type,
                Event.step1Complete])
      else
        -- reject: clarification nudge plus the same question again
        (s, [Event.validatorCall message cq.question cq.type,
             Event.assistantMsg clarificationText,
             Event.assistantMsg cq.question])
    else
      (s, [])

/-- `handleStep1Question(message)` at its natural recursion bound. -/
def handleStep1Question (V : Validator) (s : AppState) (message : String) :
    AppState × List Event :=
  handleStep1Go V s.questions.length s message

/-- `sendChatMessage()` (source lines 104-148) applied to the raw content of the
chat input field: trim, drop if empty, otherwise echo the user message and
either run the step-1 handler (while fixed questions remain) or forward the
message to the `/api/chat` backend. -/
def sendChatMessage (V : Validator) (s : AppState) (input : String) :
    AppState × List Event :=
  let message := jsTrim input
  if message = "" then (s, [])
  else
    let r :=
      if s.currentQuestionIndex < s.questions.length then
        handleStep1Question V s message
      else
        (s, [Event.chatBackendCall message])
    (r.1, Event.userMsg message :: r.2)

/-- `startChatMode()` (source lines 47-102): reset the position, present the
welcome message and the first question, and install the fixed question list. -/
def startChatMode (s : AppState) : AppState × List Event :=
  ({ s with currentQuestionIndex := 0, questions := pmmQuestions },
   [Event.assistantMsg welcomeText,
    Event.assistantMsg "What is your company name?"])

/-- The state built by the `PMMAssistant` constructor (source lines 4-13):
index 0, empty question list, empty response map. -/
def initState : AppState := ⟨0, [], []⟩

/-- The state at the start of a wizard run: the constructor state after the
one-time `startChatMode()` call made by `init()`. -/
def startedState : AppState := (startChatMode initState).1

/-- The trace emitted by the one-time `startChatMode()` call. -/
def startEvents : List Event := (startChatMode initState).2

/-- A whole interaction: feed a list of raw chat inputs through
`sendChatMessage` one at a time, collecting states and the event trace. -/
def runInputs (V : Validator) (s : AppState) : List String → AppState × List Event
  | [] => (s, [])
  | i :: is =>
    let r := sendChatMessage V s i
    let r2 := runInputs V r.1 is
    (r2.1, r.2 ++ r2.2)

/-- Iterated direct submissions to the step-1 handler (each list element is one
already-trimmed message handed to `handleStep1Question`). -/
def submitN (V : Validator) (s : AppState) : List String → AppState × List Event
  | [] => (s, [])
  | m :: ms =>
    let r := handleStep1Question V s m
    let r2 := submitN V r.1 ms
    (r2.1, r.2 ++ r2.2)

/-- Phase of the sequencer as §3 of the spec derives it from the state: fixed
questions remain (`Collecting`) or the fixed-question phase has ended
(`Handoff`).  This is exactly the branch condition of `sendChatMessage`
(source line 119). -/
inductive Phase where
  | Collecting
  | Handoff
deriving Repr, DecidableEq

/-- The phase determined by the current position. -/
def AppState.phase (s : AppState) : Phase :=
  if s.currentQuestionIndex < s.questions.length then Phase.Collecting else Phase.Handoff

/-- Result of one spec-level `submit` call. -/
inductive Outcome where
  | Rejected (q : Question)
  | NextQuestion (q : Question)
  | PhaseComplete
deriving Repr, DecidableEq

/-- Modelled from the spec (§4.1): the bounded iterative skip loop —
"repeatedly skips forward over any question whose `dependency` is present and
whose `AnswerSet[dependency.dependsOnId] != dependency.requiredValue`, until it
reaches either an answerable question or the end of the list".  The loop is
structural on the remaining question list, so it is bounded by the list length
by construction.  `rest` is `qs.drop i` for the list `qs` being walked. -/
def specSkipFrom (rs : List (String × String)) : List Question → Nat → Nat
  | [], i => i
  | q :: rest, i =>
    match q.depends_on, q.depends_value with
    | some d, some v =>
      if getResp rs d ≠ some v then specSkipFrom rs rest (i + 1) else i
    | _, _ => i

/-- Modelled from the spec (§4.1): the tail of `submit` after the Validator has
accepted the answer — record `AnswerSet[currentQuestion.id] = answer`, advance
`position` by one, run the iterative skip loop, then report either the next
answerable question or `PhaseComplete`.  Returns `none` when there is no
current question (out-of-range position). -/
def specSubmitAccept (s : AppState) (message : String) : Option (AppState × Outcome) :=
  match s.questions.get? s.currentQuestionIndex with
  | none => none
  | some cq =>
    let rs := setResp s.responses cq.id message
    let j := specSkipFrom rs (s.questions.drop (s.currentQuestionIndex + 1))
              (s.currentQuestionIndex + 1)
    let s' : AppState := { s with currentQuestionIndex := j, responses := rs }
    match s.questions.get? j with
    | some nq => some (s', Outcome.NextQuestion nq)
    | none => some (s', Outcome.PhaseComplete)

/-- The event trace that one accepted submission should produce for each
spec-level outcome: exactly one Validator round-trip — for the submitted answer
against the current question, never for a skipped question — followed by the
presentation of the next question or the completion block. -/
def acceptEvents (m prompt kind : String) : Outcome → List Event
  | Outcome.Rejected q =>
    [Event.validatorCall m prompt kind, Event.assistantMsg clarificationText,
     Event.assistantMsg q.question]
  | Outcome.NextQuestion q =>
    [Event.validatorCall m prompt kind, Event.assistantMsg q.question]
  | Outcome.PhaseComplete =>
    [Event.validatorCall m prompt kind, Event.step1Complete]

/-- Dependency wiring is well formed: the `conditional` flag holds exactly when
a usable dependency is present (a non-empty `depends_on` id, so it is truthy in
the source's `nextQuestion.conditional && nextQuestion.depends_on` guard, plus
a `depends_value`), and no stray dependency fields occur on non-conditional
questions.  The shipped list satisfies this. -/
def depWellFormed (qs : List Question) : Prop :=
  ∀ q ∈ qs,
    (q.conditional = true → q.depends_on.getD "" ≠ "" ∧ q.depends_value ≠ none) ∧
    (q.conditional = false → q.depends_on = none ∧ q.depends_value = none)

instance (qs : List Question) : Decidable (depWellFormed qs) := by
  unfold depWellFormed; infer_instance

/-- Every conditional question sits in the final position of the list (true of
the shipped list, whose only conditional question is the last). -/
def conditionalOnlyLast (qs : List Question) : Prop :=
  ∀ i : Fin qs.length, (qs.get i).conditional = true → i.val + 1 = qs.length

instance (qs : List Question) : Decidable (conditionalOnlyLast qs) := by
  unfold conditionalOnlyLast; infer_instance

/-- The post-acceptance block of `handleStep1Question` (source lines 174-205),
factored out: given the state just after the answer was stored and the position
advanced by one, perform the conditional-skip check and either present the next
question, recurse with an empty message, or complete step 1.  The leading
`validatorCall` event of the accepting submission is not included. -/
def afterAccept (V : Validator) (s1 : AppState) : AppState × List Event :=
  if h2 : s1.currentQuestionIndex < s1.questions.length then
    let nq := s1.questions[s1.currentQuestionIndex]
    if nq.conditional && optTruthy nq.depends_on then
      if getResp s1.responses (nq.depends_on.getD "") ≠ nq.depends_value then
        let s2 : AppState := { s1 with currentQuestionIndex := s1.currentQuestionIndex + 1 }
        if s2.currentQuestionIndex < s2.questions.length then
          handleStep1Question V s2 ""
        else
          (s2, [Event.step1Complete])
      else
        (s1, [Event.assistantMsg nq.question])
    else
      (s1, [Event.assistantMsg nq.question])
  else
    (s1, [Event.step1Complete])

/-- Question kinds named by the spec (§3): short text, long text,
single select. -/
inductive SpecKind where
  | text
  | longText
  | singleSelect
deriving Repr, DecidableEq

/-- One entry of the spec's fixed configuration constant (§6): id, kind,
options, required flag, and the optional `(dependsOnId, requiredValue)`
dependency. -/
structure SpecEntry where
  id : String
  kind : SpecKind
  options : List String := []
  required : Bool
  dependency : Option (String × String) := none
deriving Repr, DecidableEq

/-- The source's question `type` strings translated to spec kinds. -/
def kindOfType (t : String) : Option SpecKind :=
  if t = "text" then some SpecKind.text
  else if t = "textarea" then some SpecKind.longText
  else if t = "select" then some SpecKind.singleSelect
  else none

/-- Abstraction of a source question record to a spec configuration entry;
fails on an unknown kind or malformed dependency wiring. -/
def toSpecEntry (q : Question) : Option SpecEntry :=
  match kindOfType q.type with
  | none => none
  | some k =>
    match q.conditional, q.depends_on, q.depends_value with
    | false, none, none => some ⟨q.id, k, q.options, q.required, none⟩
    | true, some d, some v => some ⟨q.id, k, q.options, q.required, some (d, v)⟩
    | _, _, _ => none

/-- Modelled from the spec (§6): the 6-entry configuration constant — ids,
kinds, options, required flags, order, and the single dependency of
`product_name` on `company_scope == "Specific segment/product"`. -/
def specQuestionConfig : List SpecEntry :=
  [⟨"company_name", SpecKind.text, [], true, none⟩,
   ⟨"company_description", SpecKind.longText, [], true, none⟩,
   ⟨"customer_description", SpecKind.longText, [], true, none⟩,
   ⟨"positioning_experience", SpecKind.singleSelect,
      ["First time", "Repositioning existing brand"], true, none⟩,
   ⟨"company_scope", SpecKind.singleSelect,
      ["Whole company", "Specific segment/product"], true, none⟩,
   ⟨"product_name", SpecKind.text, [], false,
      some ("company_scope", "Specific segment/product")⟩]

/-- The prompt of the conditional `product_name` question. -/
def productNamePrompt : String :=
  "What is the name of the specific product you\x27re doing this exercise for?"

/-- A validation service that accepts everything. -/
def acceptAllValidator : Validator := fun _ _ _ => some true

/-- An unavailable validation service: every call errors. -/
def downValidator : Validator := fun _ _ _ => none

/-- A validation service that accepts exactly the message `"Acme"`. -/
def acmeOnlyValidator : Validator := fun m _ _ => some (m == "Acme")

/-- The end-to-end scenario answers ending in `"Whole company"` (spec §8). -/
def wholePathInputs : List String :=
  ["Acme", "We sell widgets", "SMBs", "First time", "Whole company"]

/-- The end-to-end scenario answers ending in `"Specific segment/product"`. -/
def specificPathInputs : List String :=
  ["Acme", "We sell widgets", "SMBs", "First time", "Specific segment/product"]

/-- A three-question list whose two conditional questions both depend on the
first answer being `"X"`: used to separate the source's recursive skip from the
spec's iterative skip loop. -/
def cexQuestions : List Question :=
  [{ id := "a", question := "A?", type := "text", required := true },
   { id := "b", question := "B?", type := "text", required := false,
     conditional := true, depends_on := some "a", depends_value := some "X" },
   { id := "c", question := "C?", type := "text", required := false,
     conditional := true, depends_on := some "a", depends_value := some "X" }]

/-- Start-of-run state over `cexQuestions`. -/
def cexState : AppState := ⟨0, cexQuestions, []⟩

/-- Invariant carried by every reachable state (and accumulated submit trace)
of a run over the shipped question list, starting from `startedState`:
the question list is fixed; the position stays within bounds; questions at or
beyond the position are unanswered; position 5 (the `product_name` question) is
reachable only on the `"Specific segment/product"` branch, on which the
`product_name` prompt has already been presented; the `product_name` prompt is
presented exactly on that branch; a `product_name` answer exists only on that
branch; completion pins the position at 6; and on the specific branch the
presentation of `product_name` precedes completion in the trace. -/
def ShippedInv (s : AppState) (tr : List Event) : Prop :=
  s.questions = pmmQuestions ∧
  s.currentQuestionIndex ≤ 6 ∧
  (s.currentQuestionIndex ≤ 4 → getResp s.responses "company_scope" = none) ∧
  (s.currentQuestionIndex ≤ 5 → getResp s.responses "product_name" = none) ∧
  (s.currentQuestionIndex = 5 →
    getResp s.responses "company_scope" = some "Specific segment/product") ∧
  (getResp s.responses "company_scope" = some "Specific segment/product" →
    Event.assistantMsg productNamePrompt ∈ tr) ∧
  (Event.assistantMsg productNamePrompt ∈ tr →
    getResp s.responses "company_scope" = some "Specific segment/product") ∧
  (getResp s.responses "product_name" ≠ none →
    getResp s.responses "company_scope" = some "Specific segment/product") ∧
  (Event.step1Complete ∈ tr → s.currentQuestionIndex = 6) ∧
  (getResp s.responses "company_scope" = some "Specific segment/product" →
    Event.step1Complete ∈ tr →
    List.Sublist [Event.assistantMsg productNamePrompt, Event.step1Complete] tr)

/-! ## Basic lemmas about the embedded operations -/

theorem handleStep1Go_zero (V : Validator) (s : AppState) (m : String) :
    handleStep1Go V 0 s m = (s, []) := rfl

theorem handleStep1Go_oob (V : Validator) (fuel : Nat) (s : AppState) (m : String)
    (h : ¬ s.currentQuestionIndex < s.questions.length) :
    handleStep1Go V fuel s m = (s, []) := by
  cases fuel with
  | zero => rfl
  | succ a => simp only [handleStep1Go, dif_neg h]

/-- The result of the step does not depend on the recursion bound, as long as the
bound is at least the number of remaining questions. -/
theorem handleStep1Go_fuel (V : Validator) :
    ∀ (f1 f2 : Nat) (s : AppState) (m : String),
      s.questions.length - s.currentQuestionIndex ≤ f1 →
      s.questions.length - s.currentQuestionIndex ≤ f2 →
      handleStep1Go V f1 s m = handleStep1Go V f2 s m := by
  intro f1
  induction f1 with
  | zero =>
    intro f2 s m h1 _
    have hlt : ¬ s.currentQuestionIndex < s.questions.length := by omega
    rw [handleStep1Go_zero, handleStep1Go_oob V f2 s m hlt]
  | succ a ih =>
    intro f2 s m h1 h2
    cases f2 with
    | zero =>
      have hlt : ¬ s.currentQuestionIndex < s.questions.length := by omega
      rw [handleStep1Go_zero, handleStep1Go_oob V (a + 1) s m hlt]
    | succ b =>
      by_cases h : s.currentQuestionIndex < s.questions.length
      · simp only [handleStep1Go, dif_pos h]
        split_ifs with hv hc hd hs2 hg
        all_goals try rfl
        have hrec := ih b ⟨s.currentQuestionIndex + 1 + 1, s.questions,
          setResp s.responses (s.questions[s.currentQuestionIndex]).id m⟩ ""
          (by simp <;> omega) (by simp <;> omega)
        rw [hrec]
      · simp only [handleStep1Go, dif_neg h]

/-- Rejection leaves the state untouched and re-asks the identical question
after the clarification nudge. -/
theorem handleStep1Question_rejected (V : Validator) (s : AppState) (m : String)
    (h : s.currentQuestionIndex < s.questions.length)
    (hr : (V m (s.questions[s.currentQuestionIndex]).question
              (s.questions[s.currentQuestionIndex]).type).getD false = false) :
    handleStep1Question V s m =
      (s, [Event.validatorCall m (s.questions[s.currentQuestionIndex]).question
             (s.questions[s.currentQuestionIndex]).type,
           Event.assistantMsg clarificationText,
           Event.assistantMsg (s.questions[s.currentQuestionIndex]).question]) := by
  unfold handleStep1Question
  obtain ⟨f, hf⟩ : ∃ f, s.questions.length = f + 1 := ⟨s.questions.length - 1, by omega⟩
  rw [hf]
  simp only [handleStep1Go, dif_pos h, hr]
  simp

/-- Acceptance stores the answer under the current question's id, advances the
position by exactly one, and only then runs the skip logic (`afterAccept`). -/
theorem handleStep1Question_accepted (V : Validator) (s : AppState) (m : String)
    (h : s.currentQuestionIndex < s.questions.length)
    (ha : (V m (s.questions[s.currentQuestionIndex]).question
              (s.questions[s.currentQuestionIndex]).type).getD false = true) :
    handleStep1Question V s m =
      ((afterAccept V { s with currentQuestionIndex := s.currentQuestionIndex + 1,
                               responses := setResp s.responses
                                 (s.questions[s.currentQuestionIndex]).id m }).1,
        Event.validatorCall m (s.questions[s.currentQuestionIndex]).question
            (s.questions[s.currentQuestionIndex]).type ::
          (afterAccept V { s with currentQuestionIndex := s.currentQuestionIndex + 1,
                                  responses := setResp s.responses
                                    (s.questions[s.currentQuestionIndex]).id m }).2) := by
  unfold handleStep1Question
  obtain ⟨f, hf⟩ : ∃ f, s.questions.length = f + 1 := ⟨s.questions.length - 1, by omega⟩
  rw [hf]
  simp only [handleStep1Go, dif_pos h, ha]
  simp only [if_true, afterAccept, handleStep1Question]
  split_ifs with hc hd hs2 hg
  all_goals try rfl
  have hrec := handleStep1Go_fuel V f
    (⟨s.currentQuestionIndex + 1 + 1, s.questions,
      setResp s.responses (s.questions[s.currentQuestionIndex]).id m⟩ : AppState).questions.length
    ⟨s.currentQuestionIndex + 1 + 1, s.questions,
      setResp s.responses (s.questions[s.currentQuestionIndex]).id m⟩ ""
    (by simp <;> omega) (by simp <;> omega)
  simp only [hrec]

/-- The step never touches the question list. -/
theorem handleStep1Go_questions (V : Validator) :
    ∀ (fuel : Nat) (s : AppState) (m : String),
      ((handleStep1Go V fuel s m).1).questions = s.questions := by
  intro fuel
  induction fuel with
  | zero => intro s m; rfl
  | succ a ih =>
    intro s m
    by_cases h : s.currentQuestionIndex < s.questions.length
    · simp only [handleStep1Go, dif_pos h]
      split_ifs with hv hc hd hs2 hg
      all_goals try rfl
      simpa using ih _ ""
    · simp only [handleStep1Go, dif_neg h]

/-- The step never decreases the position. -/
theorem handleStep1Go_mono (V : Validator) :
    ∀ (fuel : Nat) (s : AppState) (m : String),
      s.currentQuestionIndex ≤ ((handleStep1Go V fuel s m).1).currentQuestionIndex := by
  intro fuel
  induction fuel with
  | zero => intro s m; exact Nat.le_refl _
  | succ a ih =>
    intro s m
    by_cases h : s.currentQuestionIndex < s.questions.length
    · simp only [handleStep1Go, dif_pos h]
      split_ifs with hv hc hd hs2 hg
      all_goals simp
      all_goals try omega
      have := ih ⟨s.currentQuestionIndex + 1 + 1, s.questions,
        setResp s.responses (s.questions[s.currentQuestionIndex]).id m⟩ ""
      simp at this
      omega
    · simp only [handleStep1Go, dif_neg h]
      exact Nat.le_refl _

/-- The step never moves the position beyond the end of the list (given it
starts in range; out of range it does not move at all). -/
theorem handleStep1Go_le_length (V : Validator) :
    ∀ (fuel : Nat) (s : AppState) (m : String),
      s.currentQuestionIndex ≤ s.questions.length →
      ((handleStep1Go V fuel s m).1).currentQuestionIndex ≤ s.questions.length := by
  intro fuel
  induction fuel with
  | zero => intro s m hle; exact hle
  | succ a ih =>
    intro s m hle
    by_cases h : s.currentQuestionIndex < s.questions.length
    · simp only [handleStep1Go, dif_pos h]
      split_ifs with hv hc hd hs2 hg
      all_goals simp
      all_goals try omega
      have := ih ⟨s.currentQuestionIndex + 1 + 1, s.questions,
        setResp s.responses (s.questions[s.currentQuestionIndex]).id m⟩ ""
        (by simp; omega)
      simpa using this
    · simp only [handleStep1Go, dif_neg h]; exact hle

/-- Reading back a written key: overwriting semantics of the answer map. -/
theorem find?_map_setKey (k v k' : String) (rs : List (String × String)) (hne : k' ≠ k) :
    (rs.map (fun p => if p.1 = k then (k, v) else p)).find? (fun p => p.1 = k') =
      rs.find? (fun p => p.1 = k') := by
  induction rs with
  | nil => rfl
  | cons p t ih =>
    by_cases hp : p.1 = k
    · have h1 : ((k, v).1 = k') = False := by simp [Ne.symm hne]
      simp [List.find?, hp, h1, Ne.symm hne, ih]
    · simp only [List.map_cons, if_neg hp]
      by_cases hp' : p.1 = k'
      · simp [List.find?, hp']
      · simp [List.find?, hp', ih]

theorem find?_map_setKey_self (k v : String) (rs : List (String × String))
    (hmem : rs.any (fun p => p.1 = k) = true) :
    (rs.map (fun p => if p.1 = k then (k, v) else p)).find? (fun p => p.1 = k) =
      some (k, v) := by
  induction rs with
  | nil => simp at hmem
  | cons p t ih =>
    by_cases hp : p.1 = k
    · simp [List.find?, hp]
    · have hmem' : t.any (fun p => p.1 = k) = true := by
        simpa [hp] using hmem
      simp [List.find?, hp, ih hmem']

/-- The fundamental read-after-write law for the answer map. -/
theorem getResp_setResp (rs : List (String × String)) (k v k' : String) :
    getResp (setResp rs k v) k' = if k' = k then some v else getResp rs k' := by
  unfold getResp setResp
  by_cases hmem : rs.any (fun p => p.1 = k) = true
  · rw [if_pos hmem]
    by_cases hk : k' = k
    · subst hk
      rw [find?_map_setKey_self k' v rs hmem]
      simp
    · rw [find?_map_setKey k v k' rs hk, if_neg hk]
  · rw [if_neg hmem]
    rw [List.find?_append]
    by_cases hk : k' = k
    · subst hk
      have hnone : rs.find? (fun p => p.1 = k') = none := by
        rw [List.find?_eq_none]
        intro p hp
        by_contra hcon
        simp at hcon
        exact hmem (List.any_eq_true.mpr ⟨p, hp, by simp [hcon]⟩)
      simp [hnone, List.find?]
    · have hd : decide (k = k') = false := decide_eq_false (fun hcon => hk hcon.symm)
      simp [List.find?, hd, hk]

/-- Input that trims to the empty string is dropped before any processing. -/
theorem sendChatMessage_empty (V : Validator) (s : AppState) (input : String)
    (he : jsTrim input = "") :
    sendChatMessage V s input = (s, []) := by
  simp [sendChatMessage, he]

/-- A chat turn never touches the question list. -/
theorem sendChatMessage_questions (V : Validator) (s : AppState) (input : String) :
    ((sendChatMessage V s input).1).questions = s.questions := by
  by_cases he : jsTrim input = ""
  · rw [sendChatMessage_empty V s input he]
  · simp only [sendChatMessage, if_neg he]
    by_cases hq : s.currentQuestionIndex < s.questions.length
    · rw [if_pos hq]
      simpa [handleStep1Question] using
        handleStep1Go_questions V s.questions.length s (jsTrim input)
    · rw [if_neg hq]

/-- A chat turn never decreases the position. -/
theorem sendChatMessage_mono (V : Validator) (s : AppState) (input : String) :
    s.currentQuestionIndex ≤ ((sendChatMessage V s input).1).currentQuestionIndex := by
  by_cases he : jsTrim input = ""
  · rw [sendChatMessage_empty V s input he]
  · simp only [sendChatMessage, if_neg he]
    by_cases hq : s.currentQuestionIndex < s.questions.length
    · rw [if_pos hq]
      simpa [handleStep1Question] using
        handleStep1Go_mono V s.questions.length s (jsTrim input)
    · rw [if_neg hq]

/-- A whole run never touches the question list. -/
theorem runInputs_questions (V : Validator) :
    ∀ (inputs : List String) (s : AppState),
      ((runInputs V s inputs).1).questions = s.questions := by
  intro inputs
  induction inputs with
  | nil => intro s; rfl
  | cons i is ih =>
    intro s
    simp only [runInputs]
    rw [ih]
    exact sendChatMessage_questions V s i

/-- A whole run never decreases the position. -/
theorem runInputs_mono (V : Validator) :
    ∀ (inputs : List String) (s : AppState),
      s.currentQuestionIndex ≤ ((runInputs V s inputs).1).currentQuestionIndex := by
  intro inputs
  induction inputs with
  | nil => intro s; exact Nat.le_refl _
  | cons i is ih =>
    intro s
    simp only [runInputs]
    exact Nat.le_trans (sendChatMessage_mono V s i) (ih (sendChatMessage V s i).1)

/-- Once the fixed questions are exhausted, a nonempty message is forwarded to
the chat backend and the sequencer state is left untouched. -/
theorem sendChatMessage_handoff (V : Validator) (s : AppState) (input : String)
    (hdone : s.questions.length ≤ s.currentQuestionIndex)
    (hne : jsTrim input ≠ "") :
    sendChatMessage V s input =
      (s, [Event.userMsg (jsTrim input), Event.chatBackendCall (jsTrim input)]) := by
  simp only [sendChatMessage, if_neg hne, if_neg (by omega : ¬ s.currentQuestionIndex < s.questions.length)]

/-- `afterAccept` when the advanced position is already past the end:
step 1 completes. -/
theorem afterAccept_complete (V : Validator) (j : Nat) (qs : List Question)
    (rs : List (String × String)) (h2 : ¬ j < qs.length) :
    afterAccept V ⟨j, qs, rs⟩ = (⟨j, qs, rs⟩, [Event.step1Complete]) := by
  simp [afterAccept, h2]

/-- `afterAccept` when the next question is not skipped (either it carries no
usable dependency, or its dependency is satisfied): it is presented. -/
theorem afterAccept_noskip (V : Validator) (j : Nat) (qs : List Question)
    (rs : List (String × String)) (h2 : j < qs.length)
    (hns : ((qs[j]).conditional && optTruthy (qs[j]).depends_on) = false ∨
           getResp rs ((qs[j]).depends_on.getD "") = (qs[j]).depends_value) :
    afterAccept V ⟨j, qs, rs⟩ = (⟨j, qs, rs⟩, [Event.assistantMsg (qs[j]).question]) := by
  unfold afterAccept
  rcases hns with hg | hcmp
  · simp [h2, hg]
  · simp [h2, hcmp]

/-- `afterAccept` when the next question is skipped and the list then ends:
step 1 completes with the position moved past the skipped question. -/
theorem afterAccept_skip_complete (V : Validator) (j : Nat) (qs : List Question)
    (rs : List (String × String)) (h2 : j < qs.length)
    (hg : ((qs[j]).conditional && optTruthy (qs[j]).depends_on) = true)
    (hcmp : getResp rs ((qs[j]).depends_on.getD "") ≠ (qs[j]).depends_value)
    (hend : ¬ j + 1 < qs.length) :
    afterAccept V ⟨j, qs, rs⟩ = (⟨j + 1, qs, rs⟩, [Event.step1Complete]) := by
  unfold afterAccept
  simp [h2, hg, hcmp, hend]

/-- C1 (amended): for lists whose conditional questions occur only in the last
position and whose dependency wiring is well formed (as in the shipped list),
an accepted submission behaves exactly as the spec's store-advance-skip loop:
same final state, one single Validator round-trip (for the submitted answer
against the current question only — never for a skipped question), the same
next question presented or completion reported, and the final position bounded
by the list length. -/
theorem c1_skip_refinement (V : Validator) (s : AppState) (m : String)
    (h : s.currentQuestionIndex < s.questions.length)
    (hwf : depWellFormed s.questions)
    (hlast : conditionalOnlyLast s.questions)
    (hacc : V m (s.questions[s.currentQuestionIndex]).question
              (s.questions[s.currentQuestionIndex]).type = some true) :
    ∃ s' out,
      specSubmitAccept s m = some (s', out) ∧
      handleStep1Question V s m =
        (s', acceptEvents m (s.questions[s.currentQuestionIndex]).question
               (s.questions[s.currentQuestionIndex]).type out) ∧
      s'.currentQuestionIndex ≤ s.questions.length := by
  have hacc' : (V m (s.questions[s.currentQuestionIndex]).question
      (s.questions[s.currentQuestionIndex]).type).getD false = true := by rw [hacc]; rfl
  have hcode := handleStep1Question_accepted V s m h hacc'
  have hget : s.questions.get? s.currentQuestionIndex =
      some (s.questions[s.currentQuestionIndex]) := by
    rw [List.get?_eq_getElem?, List.getElem?_eq_getElem h]
  by_cases hc : s.currentQuestionIndex + 1 < s.questions.length
  · -- a next question exists
    have hdrop : s.questions.drop (s.currentQuestionIndex + 1) =
        s.questions[s.currentQuestionIndex + 1] ::
          s.questions.drop (s.currentQuestionIndex + 1 + 1) :=
      List.drop_eq_getElem_cons hc
    have hget2 : s.questions.get? (s.currentQuestionIndex + 1) =
        some (s.questions[s.currentQuestionIndex + 1]) := by
      rw [List.get?_eq_getElem?, List.getElem?_eq_getElem hc]
    have hnqmem : s.questions[s.currentQuestionIndex + 1] ∈ s.questions :=
      List.getElem_mem _
    by_cases hcond : (s.questions[s.currentQuestionIndex + 1]).conditional = true
    · -- the next question is conditional
      obtain ⟨hdo, hdv⟩ := (hwf _ hnqmem).1 hcond
      obtain ⟨d, hd⟩ : ∃ d, (s.questions[s.currentQuestionIndex + 1]).depends_on = some d := by
        cases hdo' : (s.questions[s.currentQuestionIndex + 1]).depends_on with
        | none => rw [hdo'] at hdo; simp at hdo
        | some d => exact ⟨d, rfl⟩
      obtain ⟨v, hv⟩ : ∃ v, (s.questions[s.currentQuestionIndex + 1]).depends_value = some v :=
        Option.ne_none_iff_exists'.mp hdv
      have hdne : ¬ d = "" := by rw [hd] at hdo; simpa using hdo
      have hg : ((s.questions[s.currentQuestionIndex + 1]).conditional &&
          optTruthy (s.questions[s.currentQuestionIndex + 1]).depends_on) = true := by
        simp [hcond, hd, optTruthy, hdne]
      by_cases hcmp :
          getResp (setResp s.responses (s.questions[s.currentQuestionIndex]).id m) d = some v
      · -- dependency satisfied: the conditional question is presented
        refine ⟨⟨s.currentQuestionIndex + 1, s.questions,
            setResp s.responses (s.questions[s.currentQuestionIndex]).id m⟩,
          Outcome.NextQuestion (s.questions[s.currentQuestionIndex + 1]), ?_, ?_, by simpa using Nat.le_of_lt hc⟩
        · simp only [specSubmitAccept, hget, hdrop, specSkipFrom, hd, hv, hcmp,
            ne_eq, not_true_eq_false, if_false, hget2]
        · rw [hcode, afterAccept_noskip V (s.currentQuestionIndex + 1) s.questions _ hc
            (Or.inr (by rw [hd, hv]; simpa using hcmp))]
          rfl
      · -- dependency unsatisfied: skipped, and the list ends there
        have hlastEq : s.currentQuestionIndex + 1 + 1 = s.questions.length :=
          hlast ⟨s.currentQuestionIndex + 1, hc⟩
            (by rw [List.get_eq_getElem]; exact hcond)
        have hdrop2 : s.questions.drop (s.currentQuestionIndex + 1 + 1) = [] :=
          List.drop_eq_nil_of_le (by omega)
        have hget3 : s.questions.get? (s.currentQuestionIndex + 1 + 1) = none := by
          rw [List.get?_eq_getElem?]; exact List.getElem?_eq_none (by omega)
        refine ⟨⟨s.currentQuestionIndex + 1 + 1, s.questions,
            setResp s.responses (s.questions[s.currentQuestionIndex]).id m⟩,
          Outcome.PhaseComplete, ?_, ?_, by simp; omega⟩
        · simp only [specSubmitAccept, hget, hdrop, hdrop2, specSkipFrom, hd, hv, hcmp,
            ne_eq, not_false_eq_true, if_true, hget3]
        · rw [hcode, afterAccept_skip_complete V (s.currentQuestionIndex + 1) s.questions _ hc hg
            (by rw [hd, hv]; simpa using hcmp) (by omega)]
          rfl
    · -- the next question is unconditional: it is presented
      obtain ⟨hdo, hdv⟩ := (hwf _ hnqmem).2 (by simpa using hcond)
      refine ⟨⟨s.currentQuestionIndex + 1, s.questions,
          setResp s.responses (s.questions[s.currentQuestionIndex]).id m⟩,
        Outcome.NextQuestion (s.questions[s.currentQuestionIndex + 1]), ?_, ?_, by simpa using Nat.le_of_lt hc⟩
      · simp only [specSubmitAccept, hget, hdrop, specSkipFrom, hdo, hget2]
      · rw [hcode, afterAccept_noskip V (s.currentQuestionIndex + 1) s.questions _ hc
          (Or.inl (by simp [hcond]))]
        rfl
  · -- no next question: step 1 completes
    have hdrop : s.questions.drop (s.currentQuestionIndex + 1) = [] :=
      List.drop_eq_nil_of_le (by omega)
    have hget2 : s.questions.get? (s.currentQuestionIndex + 1) = none := by
      rw [List.get?_eq_getElem?]; exact List.getElem?_eq_none (by omega)
    refine ⟨⟨s.currentQuestionIndex + 1, s.questions,
        setResp s.responses (s.questions[s.currentQuestionIndex]).id m⟩,
      Outcome.PhaseComplete, ?_, ?_, by simp; omega⟩
    · simp only [specSubmitAccept, hget, hdrop, specSkipFrom, hget2]
    · rw [hcode, afterAccept_complete V (s.currentQuestionIndex + 1) s.questions _ (by simpa using hc)]
      rfl

/-- C1 counterexample: over `cexQuestions` with an all-accepting validator, the
source's recursive skip (`handleStep1Question("")`) invokes the Validator with
an empty message for question `"c"` — whose dependency is unsatisfied and which
the spec's iterative skip loop therefore skips — and stores `""` as its answer,
so the observable effect (AnswerSet, Validator calls) differs from the spec's
skip loop, refuting the claim as stated for arbitrary question lists. -/
theorem c1_skip_refinement_counterexample :
    (handleStep1Question acceptAllValidator cexState "Y").1.responses =
      [("a", "Y"), ("c", "")] ∧
    Event.validatorCall "" "C?" "text" ∈ (handleStep1Question acceptAllValidator cexState "Y").2 ∧
    (specSubmitAccept cexState "Y").map (fun r => (r.1).responses) = some [("a", "Y")] ∧
    specSkipFrom [("a", "Y")] (cexQuestions.drop 1) 1 = 3 := by decide

/-- C1 witness: a concrete accepted submission over the shipped list, where the
code and the spec's skip loop agree. -/
theorem c1_skip_refinement_witness :
    ∃ s' out,
      specSubmitAccept startedState "Acme" = some (s', out) ∧
      handleStep1Question acceptAllValidator startedState "Acme" =
        (s', acceptEvents "Acme" "What is your company name?" "text" out) ∧
      s'.currentQuestionIndex ≤ startedState.questions.length :=
  c1_skip_refinement acceptAllValidator startedState "Acme" (by decide) (by decide)
    (by decide) (by decide)

/-- C3 counterexample: with the required `company_name` question current, a
whitespace-only submission leaves the state unchanged and does not invoke the
Validator, but — contrary to the claim — the question is not re-asked: no
message at all is emitted, the input is silently dropped. -/
theorem c3_required_empty_counterexample :
    (startedState.questions.get? startedState.currentQuestionIndex).map Question.required =
      some true ∧
    sendChatMessage acceptAllValidator startedState " " = (startedState, []) ∧
    Event.assistantMsg "What is your company name?" ∉
      (sendChatMessage acceptAllValidator startedState " ").2 := by decide

/-- C3 (amended): an empty or whitespace-only answer submitted while a required
question is current is dropped locally: position and AnswerSet are unchanged and
the Validator is not invoked (no events at all are emitted, so the question is
not re-asked either). -/
theorem c3_required_empty_dropped (V : Validator) (s : AppState) (input : String)
    (h : s.currentQuestionIndex < s.questions.length)
    (hreq : (s.questions[s.currentQuestionIndex]).required = true)
    (he : jsTrim input = "") :
    sendChatMessage V s input = (s, []) :=
  sendChatMessage_empty V s input he

/-- C3 witness. -/
theorem c3_required_empty_dropped_witness :
    sendChatMessage downValidator startedState " " = (startedState, []) :=
  c3_required_empty_dropped downValidator startedState " " (by decide) (by decide) (by decide)

/-- C4: if the Validator errors (is unavailable) for the submitted answer, the
submission is rejected fail-closed: the answer is not stored, the position does
not advance, and the current question is re-asked after the clarification
nudge. -/
theorem c4_validator_error_rejects (V : Validator) (s : AppState) (m : String)
    (h : s.currentQuestionIndex < s.questions.length)
    (herr : V m (s.questions[s.currentQuestionIndex]).question
              (s.questions[s.currentQuestionIndex]).type = none) :
    handleStep1Question V s m =
      (s, [Event.validatorCall m (s.questions[s.currentQuestionIndex]).question
             (s.questions[s.currentQuestionIndex]).type,
           Event.assistantMsg clarificationText,
           Event.assistantMsg (s.questions[s.currentQuestionIndex]).question]) :=
  handleStep1Question_rejected V s m h (by rw [herr]; rfl)

/-- C4 witness: the unavailable validator at the first question. -/
theorem c4_validator_error_rejects_witness :
    handleStep1Question downValidator startedState "hello" =
      (startedState, [Event.validatorCall "hello" "What is your company name?" "text",
                      Event.assistantMsg clarificationText,
                      Event.assistantMsg "What is your company name?"]) :=
  c4_validator_error_rejects downValidator startedState "hello" (by decide) (by decide)

/-- C5 counterexample: after the whole-company run completes step 1 (position 6,
`step1Complete` in the trace), a further message is not rejected with any
`SequenceClosed`-style error — no error exists in the code — but is silently
routed to the chat backend with the sequencer state unchanged, refuting the
claim. -/
theorem c5_sequence_closed_counterexample :
    (runInputs acceptAllValidator startedState wholePathInputs).1.currentQuestionIndex = 6 ∧
    Event.step1Complete ∈ (runInputs acceptAllValidator startedState wholePathInputs).2 ∧
    sendChatMessage acceptAllValidator
        (runInputs acceptAllValidator startedState wholePathInputs).1 "hello" =
      ((runInputs acceptAllValidator startedState wholePathInputs).1,
       [Event.userMsg "hello", Event.chatBackendCall "hello"]) := by decide

/-- C5 (amended): once the fixed-question phase has completed (the position has
reached the end of the list), a further nonempty message is never processed as
an answer: the sequencer state is unchanged and the message is forwarded to the
chat backend; no `SequenceClosed` error is signalled because the code defines no
such error. -/
theorem c5_handoff_routes_to_chat (V : Validator) (s : AppState) (input : String)
    (hdone : s.questions.length ≤ s.currentQuestionIndex)
    (hne : jsTrim input ≠ "") :
    sendChatMessage V s input =
      (s, [Event.userMsg (jsTrim input), Event.chatBackendCall (jsTrim input)]) :=
  sendChatMessage_handoff V s input hdone hne

/-- C5 witness. -/
theorem c5_handoff_routes_to_chat_witness :
    sendChatMessage acceptAllValidator
        (runInputs acceptAllValidator startedState wholePathInputs).1 "hello" =
      ((runInputs acceptAllValidator startedState wholePathInputs).1,
       [Event.userMsg "hello", Event.chatBackendCall "hello"]) :=
  c5_handoff_routes_to_chat acceptAllValidator
    (runInputs acceptAllValidator startedState wholePathInputs).1 "hello"
    (by decide) (by decide)

/-- C7 counterexample: with the non-required `product_name` question current
(reached on the specific-segment branch), an empty submission is NOT accepted —
it is dropped before reaching the sequencing logic: no Validator call, no stored
answer, no advancement — refuting the claim that it is accepted. -/
theorem c7_optional_empty_counterexample :
    (runInputs acceptAllValidator startedState specificPathInputs).1.currentQuestionIndex = 5 ∧
    (pmmQuestions.get? 5).map Question.required = some false ∧
    sendChatMessage acceptAllValidator
        (runInputs acceptAllValidator startedState specificPathInputs).1 "" =
      ((runInputs acceptAllValidator startedState specificPathInputs).1, []) ∧
    getResp (runInputs acceptAllValidator startedState specificPathInputs).1.responses
      "product_name" = none := by decide

/-- C7 (amended): an empty string submitted while a non-required question is
current is dropped without invoking the Validator and without being accepted:
position and AnswerSet are unchanged and no events are emitted. -/
theorem c7_optional_empty_dropped (V : Validator) (s : AppState) (input : String)
    (h : s.currentQuestionIndex < s.questions.length)
    (hreq : (s.questions[s.currentQuestionIndex]).required = false)
    (he : jsTrim input = "") :
    sendChatMessage V s input = (s, []) :=
  sendChatMessage_empty V s input he

/-- C7 witness. -/
theorem c7_optional_empty_dropped_witness :
    sendChatMessage acceptAllValidator
        (runInputs acceptAllValidator startedState specificPathInputs).1 "" =
      ((runInputs acceptAllValidator startedState specificPathInputs).1, []) :=
  c7_optional_empty_dropped acceptAllValidator
    (runInputs acceptAllValidator startedState specificPathInputs).1 ""
    (by decide) (by decide) (by decide)

/-- C10: chat input that trims to the empty string is dropped before any
processing: the handler returns immediately, producing no events (so neither the
question-handling step, nor the Validator, nor the chat backend is invoked) and
leaving position, AnswerSet — and hence phase — unchanged. -/
theorem c10_empty_input_dropped (V : Validator) (s : AppState) (input : String)
    (he : jsTrim input = "") :
    sendChatMessage V s input = (s, []) :=
  sendChatMessage_empty V s input he

/-- C10 witness. -/
theorem c10_empty_input_dropped_witness :
    sendChatMessage acceptAllValidator startedState "   " = (startedState, []) :=
  c10_empty_input_dropped acceptAllValidator startedState "   " (by decide)

/-- Helper for C6: any number of consecutive rejected submissions leaves the
state unchanged and re-asks the identical current question each time. -/
theorem submitN_all_rejected (V : Validator) (s : AppState)
    (h : s.currentQuestionIndex < s.questions.length) :
    ∀ ms : List String,
      (∀ m ∈ ms, (V m (s.questions[s.currentQuestionIndex]).question
          (s.questions[s.currentQuestionIndex]).type).getD false = false) →
      submitN V s ms =
        (s, (ms.map (fun m =>
          [Event.validatorCall m (s.questions[s.currentQuestionIndex]).question
             (s.questions[s.currentQuestionIndex]).type,
           Event.assistantMsg clarificationText,
           Event.assistantMsg (s.questions[s.currentQuestionIndex]).question])).join) := by
  intro ms
  induction ms with
  | nil => intro _; rfl
  | cons m t ih =>
    intro hall
    simp only [submitN]
    rw [handleStep1Question_rejected V s m h (hall m (by simp))]
    rw [ih (fun m' hm' => hall m' (by simp [hm']))]
    simp

/-- C6: N consecutive Validator-rejected submissions leave position and
AnswerSet unchanged and re-ask the identical current question each time
(each rejected turn produces exactly the Validator round-trip, the
clarification nudge, and the unchanged question prompt); an accepted
submission then stores the answer under the current question's id and advances
the position by exactly one step before the skip logic (`afterAccept`) is
applied. -/
theorem c6_rejections_frame_then_advance (V : Validator) (s : AppState)
    (ms : List String) (mAcc : String)
    (h : s.currentQuestionIndex < s.questions.length)
    (hrej : ∀ m ∈ ms, (V m (s.questions[s.currentQuestionIndex]).question
        (s.questions[s.currentQuestionIndex]).type).getD false = false)
    (hacc : (V mAcc (s.questions[s.currentQuestionIndex]).question
        (s.questions[s.currentQuestionIndex]).type).getD false = true) :
    submitN V s ms =
      (s, (ms.map (fun m =>
        [Event.validatorCall m (s.questions[s.currentQuestionIndex]).question
           (s.questions[s.currentQuestionIndex]).type,
         Event.assistantMsg clarificationText,
         Event.assistantMsg (s.questions[s.currentQuestionIndex]).question])).join) ∧
    handleStep1Question V s mAcc =
      ((afterAccept V { s with currentQuestionIndex := s.currentQuestionIndex + 1,
                               responses := setResp s.responses
                                 (s.questions[s.currentQuestionIndex]).id mAcc }).1,
        Event.validatorCall mAcc (s.questions[s.currentQuestionIndex]).question
            (s.questions[s.currentQuestionIndex]).type ::
          (afterAccept V { s with currentQuestionIndex := s.currentQuestionIndex + 1,
                                  responses := setResp s.responses
                                    (s.questions[s.currentQuestionIndex]).id mAcc }).2) :=
  ⟨submitN_all_rejected V s h ms hrej, handleStep1Question_accepted V s mAcc h hacc⟩

/-- C6 witness: two rejections at the first question, then the accepted answer
`"Acme"` advances to the second question. -/
theorem c6_rejections_frame_then_advance_witness :
    submitN acmeOnlyValidator startedState ["bad", "worse"] =
      (startedState,
        ((["bad", "worse"].map (fun m =>
          [Event.validatorCall m "What is your company name?" "text",
           Event.assistantMsg clarificationText,
           Event.assistantMsg "What is your company name?"])).join)) ∧
    handleStep1Question acmeOnlyValidator startedState "Acme" =
      ((afterAccept acmeOnlyValidator
          { startedState with
              currentQuestionIndex := startedState.currentQuestionIndex + 1,
              responses := setResp startedState.responses "company_name" "Acme" }).1,
        Event.validatorCall "Acme" "What is your company name?" "text" ::
          (afterAccept acmeOnlyValidator
            { startedState with
                currentQuestionIndex := startedState.currentQuestionIndex + 1,
                responses := setResp startedState.responses "company_name" "Acme" }).2) :=
  c6_rejections_frame_then_advance acmeOnlyValidator startedState ["bad", "worse"] "Acme"
    (by decide) (by decide) (by decide)

/-- C8: across any chat turn and any whole run, the position never decreases,
the question list is never modified, and once the phase is `Handoff` it stays
`Handoff` (the two-valued phase is monotone, hence it transitions at most once,
`Collecting` to `Handoff`, and never reverts). -/
theorem c8_position_monotone_phase_once (V : Validator) (s : AppState)
    (input : String) (inputs : List String) :
    s.currentQuestionIndex ≤ ((sendChatMessage V s input).1).currentQuestionIndex ∧
    ((sendChatMessage V s input).1).questions = s.questions ∧
    (s.phase = Phase.Handoff → ((sendChatMessage V s input).1).phase = Phase.Handoff) ∧
    s.currentQuestionIndex ≤ ((runInputs V s inputs).1).currentQuestionIndex ∧
    (s.phase = Phase.Handoff → ((runInputs V s inputs).1).phase = Phase.Handoff) := by
  refine ⟨sendChatMessage_mono V s input, sendChatMessage_questions V s input, ?_, runInputs_mono V inputs s, ?_⟩
  · intro hp
    have hq := sendChatMessage_questions V s input
    have hm := sendChatMessage_mono V s input
    unfold AppState.phase at hp ⊢
    rw [hq]
    have hge : s.questions.length ≤ s.currentQuestionIndex := by
      by_contra hlt
      push_neg at hlt
      rw [if_pos hlt] at hp
      simp at hp
    rw [if_neg (by omega)]
  · intro hp
    have hq := runInputs_questions V inputs s
    have hm := runInputs_mono V inputs s
    unfold AppState.phase at hp ⊢
    rw [hq]
    have hge : s.questions.length ≤ s.currentQuestionIndex := by
      by_contra hlt
      push_neg at hlt
      rw [if_pos hlt] at hp
      simp at hp
    rw [if_neg (by omega)]

/-- C8 witness: position monotone on a concrete turn, and a state already in
`Handoff` stays in `Handoff` across a further turn. -/
theorem c8_position_monotone_phase_once_witness :
    startedState.currentQuestionIndex ≤
      ((sendChatMessage acceptAllValidator startedState "Acme").1).currentQuestionIndex ∧
    ((runInputs acceptAllValidator
        (runInputs acceptAllValidator startedState wholePathInputs).1 ["x"]).1).phase =
      Phase.Handoff :=
  ⟨(c8_position_monotone_phase_once acceptAllValidator startedState "Acme" []).1,
   (c8_position_monotone_phase_once acceptAllValidator
       (runInputs acceptAllValidator startedState wholePathInputs).1 "x" ["x"]).2.2.2.2
     (by decide)⟩

/-- C9: the question list built at wizard start is exactly the 6-entry
configuration constant of the spec — same ids, kinds, options, required flags,
order, and the single dependency of `product_name` on
`company_scope == "Specific segment/product"` — and no chat turn ever modifies
the question list during a run. -/
theorem c9_question_list_is_spec_config :
    (∀ s : AppState, ((startChatMode s).1).questions = pmmQuestions) ∧
    pmmQuestions.mapM toSpecEntry = some specQuestionConfig ∧
    (∀ (V : Validator) (s : AppState) (input : String),
      ((sendChatMessage V s input).1).questions = s.questions) :=
  ⟨fun _ => rfl, by decide, fun V s input => sendChatMessage_questions V s input⟩

/-- Component form of the rejection characterization. -/
theorem handleStep1Question_rejected_mk (V : Validator) (k : Nat) (qs : List Question)
    (rs : List (String × String)) (m : String) (h : k < qs.length)
    (hr : (V m (qs[k]).question (qs[k]).type).getD false = false) :
    handleStep1Question V ⟨k, qs, rs⟩ m =
      (⟨k, qs, rs⟩,
       [Event.validatorCall m (qs[k]).question (qs[k]).type,
        Event.assistantMsg clarificationText,
        Event.assistantMsg (qs[k]).question]) :=
  handleStep1Question_rejected V ⟨k, qs, rs⟩ m h hr

/-- Component form of the acceptance characterization. -/
theorem handleStep1Question_accepted_mk (V : Validator) (k : Nat) (qs : List Question)
    (rs : List (String × String)) (m : String) (h : k < qs.length)
    (ha : (V m (qs[k]).question (qs[k]).type).getD false = true) :
    handleStep1Question V ⟨k, qs, rs⟩ m =
      ((afterAccept V ⟨k + 1, qs, setResp rs (qs[k]).id m⟩).1,
        Event.validatorCall m (qs[k]).question (qs[k]).type ::
          (afterAccept V ⟨k + 1, qs, setResp rs (qs[k]).id m⟩).2) :=
  handleStep1Question_accepted V ⟨k, qs, rs⟩ m h ha

/-- Among the shipped prompts, only the `product_name` question carries the
`product_name` prompt. -/
theorem pmm_question_eq_pn_iff :
    ∀ i : Fin pmmQuestions.length,
      ((pmmQuestions.get i).question = productNamePrompt ↔ i.val = 5) := by decide

/-- One chat turn preserves the shipped-run invariant. -/
theorem shippedInv_step (V : Validator) (s : AppState) (tr : List Event) (input : String)
    (hinv : ShippedInv s tr) :
    ShippedInv (sendChatMessage V s input).1 (tr ++ (sendChatMessage V s input).2) := by
  obtain ⟨idx, qs, rs⟩ := s
  obtain ⟨hq, hle, hsc4, hpn5, hsc5, hspa, haps, hpns, hcix, hsub⟩ := hinv
  dsimp only at hq hle hsc4 hpn5 hsc5 hspa haps hpns hcix hsub
  subst hq
  by_cases he : jsTrim input = ""
  · rw [sendChatMessage_empty V _ input he, List.append_nil]
    exact ⟨rfl, hle, hsc4, hpn5, hsc5, hspa, haps, hpns, hcix, hsub⟩
  by_cases hlt : idx < pmmQuestions.length
  case neg =>
    rw [sendChatMessage_handoff V _ input (by dsimp only; omega) he]
    refine ⟨rfl, hle, hsc4, hpn5, hsc5, ?_, ?_, hpns, ?_, ?_⟩
    · intro hsc
      exact List.mem_append_left _ (hspa hsc)
    · intro hmem
      rcases List.mem_append.mp hmem with htr | hev
      · exact haps htr
      · simp at hev
    · intro hmem
      rcases List.mem_append.mp hmem with htr | hev
      · exact hcix htr
      · simp at hev
    · intro hsc hmem
      have htr : Event.step1Complete ∈ tr := by
        rcases List.mem_append.mp hmem with htr | hev
        · exact htr
        · simp at hev
      exact (hsub hsc htr).trans (List.sublist_append_left tr _)
  case pos =>
    have hm6 : idx < 6 := by simpa [pmmQuestions] using hlt
    have hsend : sendChatMessage V ⟨idx, pmmQuestions, rs⟩ input =
        ((handleStep1Question V ⟨idx, pmmQuestions, rs⟩ (jsTrim input)).1,
          Event.userMsg (jsTrim input) ::
            (handleStep1Question V ⟨idx, pmmQuestions, rs⟩ (jsTrim input)).2) := by
      simp only [sendChatMessage, if_neg he, if_pos hlt]
    rw [hsend]
    cases hv : (V (jsTrim input) (pmmQuestions[idx]).question
        (pmmQuestions[idx]).type).getD false with
    | false =>
      rw [handleStep1Question_rejected_mk V idx pmmQuestions rs (jsTrim input) hlt hv]
      refine ⟨rfl, hle, hsc4, hpn5, hsc5, ?_, ?_, hpns, ?_, ?_⟩
      · intro hsc
        exact List.mem_append_left _ (hspa hsc)
      · intro hmem
        rcases List.mem_append.mp hmem with htr | hev
        · exact haps htr
        · simp only [List.mem_cons, List.not_mem_nil, or_false] at hev
          rcases hev with h1 | h1 | h1 | h1
          · simp at h1
          · simp at h1
          · simp only [Event.assistantMsg.injEq] at h1
            exact absurd h1 (by decide)
          · simp only [Event.assistantMsg.injEq] at h1
            have h5 : idx = 5 := by
              have hiff := pmm_question_eq_pn_iff ⟨idx, hlt⟩
              rw [List.get_eq_getElem] at hiff
              exact hiff.mp h1.symm
            exact hsc5 h5
      · intro hmem
        rcases List.mem_append.mp hmem with htr | hev
        · exact hcix htr
        · simp at hev
      · intro hsc hmem
        have htr : Event.step1Complete ∈ tr := by
          rcases List.mem_append.mp hmem with htr | hev
          · exact htr
          · simp at hev
        exact (hsub hsc htr).trans (List.sublist_append_left tr _)
    | true =>
      interval_cases idx
      · -- position 0: company_name accepted, company_description presented
        rw [handleStep1Question_accepted_mk V 0 pmmQuestions rs (jsTrim input) (by decide) hv]
        have hAA : afterAccept V ⟨0 + 1, pmmQuestions,
            setResp rs (pmmQuestions[0]).id (jsTrim input)⟩ =
            (⟨1, pmmQuestions, setResp rs "company_name" (jsTrim input)⟩,
             [Event.assistantMsg "Please provide a brief description of what your company does."]) :=
          afterAccept_noskip V (0 + 1) pmmQuestions _ (by decide) (Or.inl (by decide))
        rw [hAA]
        refine ⟨rfl, by dsimp only; omega, ?_, ?_, ?_, ?_, ?_, ?_, ?_, ?_⟩
        all_goals try dsimp only
        · intro _
          rw [getResp_setResp, if_neg (by decide)]
          exact hsc4 (by omega)
        · intro _
          rw [getResp_setResp, if_neg (by decide)]
          exact hpn5 (by omega)
        · intro h5
          exact absurd h5 (by decide)
        · intro hs
          rw [getResp_setResp, if_neg (by decide)] at hs
          rw [hsc4 (by omega)] at hs
          exact Option.noConfusion hs
        · intro hmem
          rcases List.mem_append.mp hmem with htr | hev
          · have h1 := haps htr
            rw [hsc4 (by omega)] at h1
            exact Option.noConfusion h1
          · simp only [List.mem_cons, List.not_mem_nil, or_false] at hev
            rcases hev with h1 | h1 | h1
            · simp at h1
            · simp at h1
            · simp only [Event.assistantMsg.injEq] at h1
              exact absurd h1 (by decide)
        · intro hpn
          rw [getResp_setResp, if_neg (by decide)] at hpn
          exact absurd (hpn5 (by omega)) hpn
        · intro hmem
          rcases List.mem_append.mp hmem with htr | hev
          · exact absurd (hcix htr) (by decide)
          · simp at hev
        · intro hs _
          rw [getResp_setResp, if_neg (by decide)] at hs
          rw [hsc4 (by omega)] at hs
          exact Option.noConfusion hs
      · -- position 1
        rw [handleStep1Question_accepted_mk V 1 pmmQuestions rs (jsTrim input) (by decide) hv]
        have hAA : afterAccept V ⟨1 + 1, pmmQuestions,
            setResp rs (pmmQuestions[1]).id (jsTrim input)⟩ =
            (⟨2, pmmQuestions, setResp rs "company_description" (jsTrim input)⟩,
             [Event.assistantMsg "Please provide a brief description of who your customers are."]) :=
          afterAccept_noskip V (1 + 1) pmmQuestions _ (by decide) (Or.inl (by decide))
        rw [hAA]
        refine ⟨rfl, by dsimp only; omega, ?_, ?_, ?_, ?_, ?_, ?_, ?_, ?_⟩
        all_goals try dsimp only
        · intro _
          rw [getResp_setResp, if_neg (by decide)]
          exact hsc4 (by omega)
        · intro _
          rw [getResp_setResp, if_neg (by decide)]
          exact hpn5 (by omega)
        · intro h5
          exact absurd h5 (by decide)
        · intro hs
          rw [getResp_setResp, if_neg (by decide)] at hs
          rw [hsc4 (by omega)] at hs
          exact Option.noConfusion hs
        · intro hmem
          rcases List.mem_append.mp hmem with htr | hev
          · have h1 := haps htr
            rw [hsc4 (by omega)] at h1
            exact Option.noConfusion h1
          · simp only [List.mem_cons, List.not_mem_nil, or_false] at hev
            rcases hev with h1 | h1 | h1
            · simp at h1
            · simp at h1
            · simp only [Event.assistantMsg.injEq] at h1
              exact absurd h1 (by decide)
        · intro hpn
          rw [getResp_setResp, if_neg (by decide)] at hpn
          exact absurd (hpn5 (by omega)) hpn
        · intro hmem
          rcases List.mem_append.mp hmem with htr | hev
          · exact absurd (hcix htr) (by decide)
          · simp at hev
        · intro hs _
          rw [getResp_setResp, if_neg (by decide)] at hs
          rw [hsc4 (by omega)] at hs
          exact Option.noConfusion hs
      · -- position 2
        rw [handleStep1Question_accepted_mk V 2 pmmQuestions rs (jsTrim input) (by decide) hv]
        have hAA : afterAccept V ⟨2 + 1, pmmQuestions,
            setResp rs (pmmQuestions[2]).id (jsTrim input)⟩ =
            (⟨3, pmmQuestions, setResp rs "customer_description" (jsTrim input)⟩,
             [Event.assistantMsg "Are you doing the positioning and messaging exercise for the first time, or are you repositioning an existing brand?"]) :=
          afterAccept_noskip V (2 + 1) pmmQuestions _ (by decide) (Or.inl (by decide))
        rw [hAA]
        refine ⟨rfl, by dsimp only; omega, ?_, ?_, ?_, ?_, ?_, ?_, ?_, ?_⟩
        all_goals try dsimp only
        · intro _
          rw [getResp_setResp, if_neg (by decide)]
          exact hsc4 (by omega)
        · intro _
          rw [getResp_setResp, if_neg (by decide)]
          exact hpn5 (by omega)
        · intro h5
          exact absurd h5 (by decide)
        · intro hs
          rw [getResp_setResp, if_neg (by decide)] at hs
          rw [hsc4 (by omega)] at hs
          exact Option.noConfusion hs
        · intro hmem
          rcases List.mem_append.mp hmem with htr | hev
          · have h1 := haps htr
            rw [hsc4 (by omega)] at h1
            exact Option.noConfusion h1
          · simp only [List.mem_cons, List.not_mem_nil, or_false] at hev
            rcases hev with h1 | h1 | h1
            · simp at h1
            · simp at h1
            · simp only [Event.assistantMsg.injEq] at h1
              exact absurd h1 (by decide)
        · intro hpn
          rw [getResp_setResp, if_neg (by decide)] at hpn
          exact absurd (hpn5 (by omega)) hpn
        · intro hmem
          rcases List.mem_append.mp hmem with htr | hev
          · exact absurd (hcix htr) (by decide)
          · simp at hev
        · intro hs _
          rw [getResp_setResp, if_neg (by decide)] at hs
          rw [hsc4 (by omega)] at hs
          exact Option.noConfusion hs
      · -- position 3
        rw [handleStep1Question_accepted_mk V 3 pmmQuestions rs (jsTrim input) (by decide) hv]
        have hAA : afterAccept V ⟨3 + 1, pmmQuestions,
            setResp rs (pmmQuestions[3]).id (jsTrim input)⟩ =
            (⟨4, pmmQuestions, setResp rs "positioning_experience" (jsTrim input)⟩,
             [Event.assistantMsg "Are you doing this exercise for the whole company or a specific segment/product?"]) :=
          afterAccept_noskip V (3 + 1) pmmQuestions _ (by decide) (Or.inl (by decide))
        rw [hAA]
        refine ⟨rfl, by dsimp only; omega, ?_, ?_, ?_, ?_, ?_, ?_, ?_, ?_⟩
        all_goals try dsimp only
        · intro _
          rw [getResp_setResp, if_neg (by decide)]
          exact hsc4 (by omega)
        · intro _
          rw [getResp_setResp, if_neg (by decide)]
          exact hpn5 (by omega)
        · intro h5
          exact absurd h5 (by decide)
        · intro hs
          rw [getResp_setResp, if_neg (by decide)] at hs
          rw [hsc4 (by omega)] at hs
          exact Option.noConfusion hs
        · intro hmem
          rcases List.mem_append.mp hmem with htr | hev
          · have h1 := haps htr
            rw [hsc4 (by omega)] at h1
            exact Option.noConfusion h1
          · simp only [List.mem_cons, List.not_mem_nil, or_false] at hev
            rcases hev with h1 | h1 | h1
            · simp at h1
            · simp at h1
            · simp only [Event.assistantMsg.injEq] at h1
              exact absurd h1 (by decide)
        · intro hpn
          rw [getResp_setResp, if_neg (by decide)] at hpn
          exact absurd (hpn5 (by omega)) hpn
        · intro hmem
          rcases List.mem_append.mp hmem with htr | hev
          · exact absurd (hcix htr) (by decide)
          · simp at hev
        · intro hs _
          rw [getResp_setResp, if_neg (by decide)] at hs
          rw [hsc4 (by omega)] at hs
          exact Option.noConfusion hs
      · -- position 4: company_scope accepted; product_name presented or skipped
        rw [handleStep1Question_accepted_mk V 4 pmmQuestions rs (jsTrim input) (by decide) hv]
        by_cases hms : jsTrim input = "Specific segment/product"
        · -- specific branch: product_name is presented
          have hAA : afterAccept V ⟨4 + 1, pmmQuestions,
              setResp rs (pmmQuestions[4]).id (jsTrim input)⟩ =
              (⟨5, pmmQuestions, setResp rs "company_scope" (jsTrim input)⟩,
               [Event.assistantMsg productNamePrompt]) :=
            afterAccept_noskip V (4 + 1) pmmQuestions _ (by decide)
              (Or.inr (by simp [getResp_setResp, pmmQuestions, hms]))
          rw [hAA]
          refine ⟨rfl, by dsimp only; omega, ?_, ?_, ?_, ?_, ?_, ?_, ?_, ?_⟩
          all_goals try dsimp only
          · intro h4
            exact absurd h4 (by decide)
          · intro _
            rw [getResp_setResp, if_neg (by decide)]
            exact hpn5 (by omega)
          · intro _
            rw [getResp_setResp, if_pos rfl, hms]
          · intro _
            simp
          · intro _
            rw [getResp_setResp, if_pos rfl, hms]
          · intro _
            rw [getResp_setResp, if_pos rfl, hms]
          · intro hmem
            rcases List.mem_append.mp hmem with htr | hev
            · exact absurd (hcix htr) (by decide)
            · simp at hev
          · intro _ hmem
            exfalso
            rcases List.mem_append.mp hmem with htr | hev
            · exact absurd (hcix htr) (by decide)
            · simp at hev
        · -- non-specific branch: product_name is skipped and step 1 completes
          have hAA : afterAccept V ⟨4 + 1, pmmQuestions,
              setResp rs (pmmQuestions[4]).id (jsTrim input)⟩ =
              (⟨6, pmmQuestions, setResp rs "company_scope" (jsTrim input)⟩,
               [Event.step1Complete]) :=
            afterAccept_skip_complete V (4 + 1) pmmQuestions _ (by decide) (by decide)
              (by simp [getResp_setResp, pmmQuestions]; exact hms) (by decide)
          rw [hAA]
          refine ⟨rfl, by dsimp only; omega, ?_, ?_, ?_, ?_, ?_, ?_, ?_, ?_⟩
          all_goals try dsimp only
          · intro h4
            exact absurd h4 (by decide)
          · intro h5
            exact absurd h5 (by decide)
          · intro h5
            exact absurd h5 (by decide)
          · intro hs
            rw [getResp_setResp, if_pos rfl] at hs
            simp only [Option.some.injEq] at hs
            exact absurd hs hms
          · intro hmem
            rcases List.mem_append.mp hmem with htr | hev
            · have h1 := haps htr
              rw [hsc4 (by omega)] at h1
              exact Option.noConfusion h1
            · simp at hev
          · intro hpn
            rw [getResp_setResp, if_neg (by decide)] at hpn
            exact absurd (hpn5 (by omega)) hpn
          · intro _
            rfl
          · intro hs _
            rw [getResp_setResp, if_pos rfl] at hs
            simp only [Option.some.injEq] at hs
            exact absurd hs hms
      · -- position 5: product_name accepted, step 1 completes
        rw [handleStep1Question_accepted_mk V 5 pmmQuestions rs (jsTrim input) (by decide) hv]
        have hAA : afterAccept V ⟨5 + 1, pmmQuestions,
            setResp rs (pmmQuestions[5]).id (jsTrim input)⟩ =
            (⟨6, pmmQuestions, setResp rs "product_name" (jsTrim input)⟩,
             [Event.step1Complete]) :=
          afterAccept_complete V (5 + 1) pmmQuestions _ (by decide)
        rw [hAA]
        have hs5 := hsc5 rfl
        refine ⟨rfl, by dsimp only; omega, ?_, ?_, ?_, ?_, ?_, ?_, ?_, ?_⟩
        all_goals try dsimp only
        · intro h4
          exact absurd h4 (by decide)
        · intro h5
          exact absurd h5 (by decide)
        · intro h5
          exact absurd h5 (by decide)
        · intro _
          exact List.mem_append_left _ (hspa hs5)
        · intro _
          rw [getResp_setResp, if_neg (by decide)]
          exact hs5
        · intro _
          rw [getResp_setResp, if_neg (by decide)]
          exact hs5
        · intro _
          rfl
        · intro _ _
          have h1 : [Event.assistantMsg productNamePrompt].Sublist tr :=
            List.singleton_sublist.mpr (hspa hs5)
          have h2 : [Event.step1Complete].Sublist
              [Event.userMsg (jsTrim input),
               Event.validatorCall (jsTrim input) (pmmQuestions[5]).question
                 (pmmQuestions[5]).type,
               Event.step1Complete] :=
            List.singleton_sublist.mpr (by simp)
          simpa using h1.append h2

/-- The invariant holds at the start of a run. -/
theorem shippedInv_start : ShippedInv startedState [] :=
  ⟨rfl, by decide, fun _ => rfl, fun _ => rfl,
   fun h => absurd h (by decide),
   fun h => absurd h (by decide),
   fun h => absurd h (List.not_mem_nil _),
   fun h => absurd rfl h,
   fun h => absurd h (List.not_mem_nil _),
   fun _ hc => absurd hc (List.not_mem_nil _)⟩

/-- A whole run preserves the shipped-run invariant. -/
theorem shippedInv_run (V : Validator) :
    ∀ (inputs : List String) (s : AppState) (tr : List Event),
      ShippedInv s tr →
      ShippedInv (runInputs V s inputs).1 (tr ++ (runInputs V s inputs).2) := by
  intro inputs
  induction inputs with
  | nil => intro s tr h; simpa [runInputs] using h
  | cons i is ih =>
    intro s tr h
    simp only [runInputs]
    have h2 := ih (sendChatMessage V s i).1 (tr ++ (sendChatMessage V s i).2)
      (shippedInv_step V s tr i h)
    simpa [List.append_assoc] using h2

/-- C2: in every run over the shipped 6-question list, if the accepted
`company_scope` answer is `"Whole company"` then the `product_name` question is
never presented (its prompt occurs nowhere in the run's trace, including the
start-of-run messages) and `AnswerSet` has no `product_name` entry; if the
accepted `company_scope` answer is `"Specific segment/product"` then the
`product_name` question is presented, and presented before `PhaseComplete`
(`step1Complete`) whenever the run completes. -/
theorem c2_company_scope_branching (V : Validator) (inputs : List String) :
    (getResp (runInputs V startedState inputs).1.responses "company_scope" =
        some "Whole company" →
      getResp (runInputs V startedState inputs).1.responses "product_name" = none ∧
      Event.assistantMsg productNamePrompt ∉
        startEvents ++ (runInputs V startedState inputs).2) ∧
    (getResp (runInputs V startedState inputs).1.responses "company_scope" =
        some "Specific segment/product" →
      Event.assistantMsg productNamePrompt ∈ (runInputs V startedState inputs).2 ∧
      (Event.step1Complete ∈ (runInputs V startedState inputs).2 →
        List.Sublist [Event.assistantMsg productNamePrompt, Event.step1Complete]
          (runInputs V startedState inputs).2)) := by
  have hrun := shippedInv_run V inputs startedState [] shippedInv_start
  simp only [List.nil_append] at hrun
  obtain ⟨hq, hle, hsc4, hpn5, hsc5, hspa, haps, hpns, hcix, hsub⟩ := hrun
  constructor
  · intro hws
    constructor
    · by_contra hpn
      have hcontra := hpns hpn
      rw [hws] at hcontra
      simp at hcontra
    · intro hmem
      rcases List.mem_append.mp hmem with hst | htr
      · exact absurd hst (by decide)
      · have hcontra := haps htr
        rw [hws] at hcontra
        simp at hcontra
  · intro hss
    exact ⟨hspa hss, fun hc => hsub hss hc⟩

/-- C2 witness: the two end-to-end scenarios from the spec. -/
theorem c2_company_scope_branching_witness :
    getResp (runInputs acceptAllValidator startedState wholePathInputs).1.responses
        "company_scope" = some "Whole company" ∧
    getResp (runInputs acceptAllValidator startedState wholePathInputs).1.responses
        "product_name" = none ∧
    Event.assistantMsg productNamePrompt ∈
      (runInputs acceptAllValidator startedState specificPathInputs).2 :=
  ⟨by decide,
   ((c2_company_scope_branching acceptAllValidator wholePathInputs).1 (by decide)).1,
   ((c2_company_scope_branching acceptAllValidator specificPathInputs).2 (by decide)).1⟩
